import Mathlib

/-!
Shallow embedding of the core calculation functions of `src/BarM.py`
(BarMate: a bar-bending-schedule generator), together with theorems
checking the repository's specification against them.

Modelling conventions:
* Python floats are modelled as exact rationals (`ℚ`); Python's
  `round(x, 3)` (round-half-to-even to 3 decimal places) is modelled by
  `round3` below, applied to the exact rational value.
* Python lengths-lists are `List ℤ` (the UI parses integers), bar
  diameters and bend counts are `ℕ`.
* A Python function that can return an `"Error"` dictionary is modelled
  with `Except String`; a dictionary access that would raise `KeyError`
  is modelled by an explicit `crash` outcome.
* `bm` returns `Option BarRecord`: `none` whenever the Python function
  returns `None` or a raised exception propagates out of it (in either
  case no record is produced).
-/

namespace BarM

/-- Round-half-to-even of a rational to an integer (the rounding mode of
Python's built-in `round`). -/
def roundHalfEven (x : ℚ) : ℤ :=
  let n := ⌊x⌋
  let f := x - n
  if f < 1/2 then n
  else if 1/2 < f then n + 1
  else if Even n then n else n + 1

/-- Python's `round(x, 3)`: round to 3 decimal places, half to even. -/
def round3 (x : ℚ) : ℚ := (roundHalfEven (x * 1000) : ℚ) / 1000

/-- The success payload of `bars_and_offcuts` (`src/BarM.py:153`):
`{"bars_used": ..., "offcuts": ..., "total_wastage": ...}`. -/
structure Alloc where
  bars_used : ℕ
  offcuts : List ℚ
  total_wastage : ℚ
deriving DecidableEq, Repr

/-- `bars_and_offcuts` (`src/BarM.py:139-153`).  `num_cuts_needed` is a
count (`ℕ`); callers in the program pass non-negative unit counts. -/
def bars_and_offcuts (cut_length bar_size : ℚ) (num_cuts_needed : ℕ) :
    Except String Alloc :=
  if cut_length ≤ 0 then .error "Cut length must be positive."
  else if cut_length > bar_size then
    .error "Cut length is greater than stock bar size."
  else
    let cuts_per_bar : ℕ := (⌊bar_size / cut_length⌋).toNat
    if cuts_per_bar = 0 then
      .error "Cannot get any cuts from the selected bar size."
    else
      let num_full_bars := num_cuts_needed / cuts_per_bar
      let remaining_cuts := num_cuts_needed % cuts_per_bar
      let offcut_from_full_bar := bar_size - (cuts_per_bar : ℚ) * cut_length
      let base := List.replicate num_full_bars offcut_from_full_bar
      let offcuts :=
        if remaining_cuts > 0 then
          base ++ [bar_size - (remaining_cuts : ℚ) * cut_length]
        else base
      let bars_used :=
        if remaining_cuts > 0 then num_full_bars + 1 else num_full_bars
      .ok ⟨bars_used, offcuts, round3 offcuts.sum⟩

/-- The success dictionary of `optimal_bar_size`
(`{'optimal_size': ..., 'bars_required': ..., 'wastage': ...}`). -/
structure OptResult where
  optimal_size : ℚ
  bars_required : ℕ
  wastage : ℚ
deriving DecidableEq, Repr

/-- Outcome of `optimal_bar_size` (`src/BarM.py:155-166`):
`ok` is the full result dictionary; `noCandidate` is the
`{'wastage': inf}` dictionary returned when no candidate succeeded
(it lacks the `'optimal_size'` key); `crash` models the `KeyError`
raised on line 160 when `result` is an error dictionary. -/
inductive OptOutcome where
  | ok (r : OptResult)
  | noCandidate
  | crash
deriving DecidableEq, Repr

/-- `standard_bar_sizes = [6.0, 7.5, 9.0, 12.0]` (`src/BarM.py:156`). -/
def standard_bar_sizes : List ℚ := [6, 7.5, 9, 12]

/-- One iteration of the `for bar in standard_bar_sizes` loop of
`optimal_bar_size` (`src/BarM.py:161-165`).  `none` stands for the
initial `{'wastage': float('inf')}` accumulator; a candidate replaces
the accumulator only when its wastage is strictly smaller. -/
def optStep (cut_length : ℚ) (num_cuts_needed : ℕ)
    (best : Option OptResult) (bar : ℚ) : Option OptResult :=
  if bar < cut_length then best
  else
    match bars_and_offcuts cut_length bar num_cuts_needed with
    | .error _ => best
    | .ok r =>
      match best with
      | none => some ⟨bar, r.bars_used, r.total_wastage⟩
      | some b =>
        if r.total_wastage < b.wastage then
          some ⟨bar, r.bars_used, r.total_wastage⟩
        else some b

/-- `optimal_bar_size` (`src/BarM.py:155-166`).  `max(standard_bar_sizes)`
is the literal `12`.  In the fallback branch the code evaluates
`result['bars_used']` on the result of
`bars_and_offcuts(cut_length, 12.0, ...)`; when that result is an error
dictionary the subscript raises `KeyError`, modelled as `.crash`. -/
def optimal_bar_size (cut_length : ℚ) (num_cuts_needed : ℕ) : OptOutcome :=
  if cut_length > 12 then
    match bars_and_offcuts cut_length 12 num_cuts_needed with
    | .ok r => .ok ⟨12, r.bars_used, r.total_wastage⟩
    | .error _ => .crash
  else
    match standard_bar_sizes.foldl (optStep cut_length num_cuts_needed) none with
    | some b => .ok b
    | none => .noCandidate

/-- The `Bend_deductions` dictionary of `Cutlength` (`src/BarM.py:203`). -/
def Bend_deductions : List (ℕ × ℤ) :=
  [(10, 20), (12, 24), (16, 32), (18, 36), (20, 40), (25, 50), (32, 64)]

/-- `Cutlength` (`src/BarM.py:201-204`): sum of the lengths minus the
per-diameter deduction (0 for a diameter absent from the dictionary)
times the number of 90-degree bends. -/
def Cutlength (lengths : List ℤ) (diameter : ℕ) (number_90_bends : ℕ) : ℤ :=
  lengths.sum - ((Bend_deductions.lookup diameter).getD 0) * number_90_bends

/-- `numof` (`src/BarM.py:134-137`). -/
def numof (length spacing cover : ℚ) : ℤ :=
  if spacing ≤ 0 then 0
  else max 0 (⌈(length - cover) / spacing⌉ - 2)

/-- The stock-length preference of `bm`: the UI passes the string
`"Optimal"` or one of `"6m" / "7.5m" / "9m" / "12m"`; a non-`"Optimal"`
string is converted with `float(s.replace('m', ''))` (`src/BarM.py:181`),
modelled as carrying the parsed rational directly. -/
inductive StockPref where
  | optimal
  | fixed (l : ℚ)
deriving DecidableEq, Repr

/-- One row of the schedule dataframe, as built by `bm`
(`src/BarM.py:187`). -/
structure BarRecord where
  Barmark : String
  Grade : String
  Location : String
  CutLength : ℚ
  Units : ℕ
  StockLength : ℚ
  NumStockBars : ℕ
  Wastage : ℚ
  Lengths : List ℤ
deriving DecidableEq, Repr

/-- `bm` (`src/BarM.py:168-188`).  Returns `none` whenever the Python
function returns `None` (unit count ≤ 0, allocation error, missing
`'optimal_size'` key) or an exception propagates out of it (the
`KeyError` of the `optimal_bar_size` fallback) — in all those cases no
record is produced. -/
def bm (Barmark : String) (Lengths : List ℤ) (type_rebar : String)
    (Diameter : ℕ) (bends_90 : ℕ) (Unit_number : ℤ) (Location : String)
    (Preferred_Length : StockPref) : Option BarRecord :=
  let CutL_mm := Cutlength Lengths Diameter bends_90
  let CutL_m := round3 ((CutL_mm : ℚ) / 1000)
  if Unit_number ≤ 0 then none
  else
    match Preferred_Length with
    | .optimal =>
      match optimal_bar_size CutL_m Unit_number.toNat with
      | .ok r =>
        some ⟨Barmark, type_rebar ++ toString Diameter, Location, CutL_m,
              Unit_number.toNat, r.optimal_size, r.bars_required, r.wastage,
              Lengths⟩
      | .noCandidate => none
      | .crash => none
    | .fixed Pref_L =>
      match bars_and_offcuts CutL_m Pref_L Unit_number.toNat with
      | .ok r =>
        some ⟨Barmark, type_rebar ++ toString Diameter, Location, CutL_m,
              Unit_number.toNat, Pref_L, r.bars_used, r.total_wastage,
              Lengths⟩
      | .error _ => none

/-- One row of the dataframe produced by `recalculate_with_fixed_length`:
the `Num Stock Bars` and `Wastage (m)` cells may hold the string
`'N/A'`, modelled as `none`. -/
structure RecalcRow where
  Barmark : String
  Grade : String
  Location : String
  CutLength : ℚ
  Units : ℕ
  StockLength : ℚ
  NumStockBars : Option ℕ
  Wastage : Option ℚ
  Lengths : List ℤ
deriving DecidableEq, Repr

/-- The loop body of `recalculate_with_fixed_length`
(`src/BarM.py:192-198`): on a successful allocation the row's stock
length, bar count and wastage are overwritten; on an error the stock
length is overwritten and the other two cells become `'N/A'`.  All
other cells of the row are untouched. -/
def recalc_row (fixed_length : ℚ) (row : BarRecord) : RecalcRow :=
  match bars_and_offcuts row.CutLength fixed_length row.Units with
  | .ok r =>
    ⟨row.Barmark, row.Grade, row.Location, row.CutLength, row.Units,
     fixed_length, some r.bars_used, some r.total_wastage, row.Lengths⟩
  | .error _ =>
    ⟨row.Barmark, row.Grade, row.Location, row.CutLength, row.Units,
     fixed_length, none, none, row.Lengths⟩

/-- `recalculate_with_fixed_length` (`src/BarM.py:190-199`): rebuilds
every row of the dataframe independently. -/
def recalculate_with_fixed_length (df : List BarRecord) (fixed_length : ℚ) :
    List RecalcRow :=
  df.map (recalc_row fixed_length)

/-- Modelled from the spec (§4.1): the bend-deduction table
`{10:20, 12:24, 16:32, 18:36, 20:40, 25:50, 32:64}` with diameters
absent from the table deducting 0.  Used only to compare `Cutlength`
against the spec's wording. -/
def specBendDeduction (d : ℕ) : ℤ :=
  if d = 10 then 20 else if d = 12 then 24 else if d = 16 then 32
  else if d = 18 then 36 else if d = 20 then 40 else if d = 25 then 50
  else if d = 32 then 64 else 0

/-- Modelled from the spec (§4.2, `allocate`): `cutsPerBar` cuts per
stock bar, `fullBars` full bars plus one extra bar when a remainder of
cuts is left, each bar contributing its offcut, total wastage the sum
of offcuts rounded once to 3 decimals.  Used to compare
`bars_and_offcuts` against the spec's wording. -/
def allocateSpec (cutLength stockLength : ℚ) (quantity : ℕ) : Alloc :=
  let cutsPerBar : ℕ := (⌊stockLength / cutLength⌋).toNat
  let fullBars := quantity / cutsPerBar
  let remainder := quantity % cutsPerBar
  let offcuts :=
    List.replicate fullBars (stockLength - (cutsPerBar : ℚ) * cutLength) ++
      (if remainder > 0 then [stockLength - (remainder : ℚ) * cutLength] else [])
  { bars_used := fullBars + (if remainder > 0 then 1 else 0)
    offcuts := offcuts
    total_wastage := round3 offcuts.sum }

/-! ### Helper lemmas -/

/-- `round3` is the identity on a rational that is an integer number of
thousandths. -/
theorem round3_coe_div (n : ℤ) : round3 ((n : ℚ) / 1000) = (n : ℚ) / 1000 := by
  unfold round3 roundHalfEven
  have h : ((n : ℚ) / 1000) * 1000 = (n : ℚ) := by
    rw [div_mul_cancel₀]
    norm_num
  rw [h, Int.floor_intCast]
  norm_num

/-- Convenience form of `round3_coe_div`. -/
theorem round3_eq {x : ℚ} (n : ℤ) (h : x = (n : ℚ) / 1000) : round3 x = x := by
  rw [h, round3_coe_div]

/-- With `0 < cut ≤ stock`, at least one cut fits per stock bar. -/
theorem cutsPerBar_pos {cut stock : ℚ} (hc : 0 < cut) (hcs : cut ≤ stock) :
    1 ≤ (⌊stock / cut⌋).toNat := by
  have h1 : (1 : ℚ) ≤ stock / cut := (one_le_div hc).mpr hcs
  have h2 : (1 : ℤ) ≤ ⌊stock / cut⌋ := by
    rw [Int.le_floor]
    exact_mod_cast h1
  omega

/-- The cuts per bar never over-consume the stock bar. -/
theorem cutsPerBar_mul_le {cut stock : ℚ} (hc : 0 < cut) (hcs : cut ≤ stock) :
    ((⌊stock / cut⌋).toNat : ℚ) * cut ≤ stock := by
  have h0 : (0 : ℤ) ≤ ⌊stock / cut⌋ :=
    Int.floor_nonneg.mpr (div_nonneg (hc.le.trans hcs) hc.le)
  have hcast : ((⌊stock / cut⌋).toNat : ℚ) = ((⌊stock / cut⌋ : ℤ) : ℚ) := by
    exact_mod_cast Int.toNat_of_nonneg h0
  rw [hcast]
  calc ((⌊stock / cut⌋ : ℤ) : ℚ) * cut ≤ (stock / cut) * cut :=
        mul_le_mul_of_nonneg_right (Int.floor_le _) hc.le
    _ = stock := div_mul_cancel₀ _ (ne_of_gt hc)

/-- On a valid input, `bars_and_offcuts` succeeds and agrees with the
spec-side `allocateSpec`. -/
theorem bars_and_offcuts_eq_spec {cut stock : ℚ} (q : ℕ)
    (hc : 0 < cut) (hcs : cut ≤ stock) :
    bars_and_offcuts cut stock q = .ok (allocateSpec cut stock q) := by
  have hcpb := cutsPerBar_pos hc hcs
  unfold bars_and_offcuts allocateSpec
  rw [if_neg (not_le.mpr hc), if_neg (not_lt.mpr hcs), if_neg (by omega)]
  by_cases hr : 0 < q % (⌊stock / cut⌋).toNat <;> simp [hr]

/-- The sum of the offcuts of `allocateSpec` is exactly the consumed
stock length minus the required cut length, so the reported wastage is
that quantity rounded once to 3 decimals. -/
theorem allocateSpec_wastage (cut stock : ℚ) (q : ℕ) :
    (allocateSpec cut stock q).total_wastage =
      round3 (((allocateSpec cut stock q).bars_used : ℚ) * stock - (q : ℚ) * cut) := by
  unfold allocateSpec
  have hq : ((⌊stock / cut⌋).toNat : ℚ) * ((q / (⌊stock / cut⌋).toNat : ℕ) : ℚ) +
      ((q % (⌊stock / cut⌋).toNat : ℕ) : ℚ) = (q : ℚ) := by
    exact_mod_cast congrArg (fun n : ℕ => (n : ℚ))
      (Nat.div_add_mod q (⌊stock / cut⌋).toNat)
  by_cases hr : 0 < q % (⌊stock / cut⌋).toNat
  · simp only [hr, if_pos, List.sum_append, List.sum_replicate, List.sum_cons,
      List.sum_nil, nsmul_eq_mul]
    congr 1
    rw [← hq]
    push_cast
    ring
  · simp only [hr, if_neg, if_false, List.append_nil, List.sum_replicate,
      nsmul_eq_mul]
    have hr0 : (q % (⌊stock / cut⌋).toNat : ℕ) = 0 := by omega
    congr 1
    rw [← hq, hr0]
    push_cast
    ring

/-- If at least one cut fits per bar, the bar count of the allocation
covers the requested quantity of cuts. -/
theorem bars_mul_cpb_ge (c q : ℕ) (h : 0 < c) :
    q ≤ (q / c + (if 0 < q % c then 1 else 0)) * c := by
  have h1 : q / c * c + q % c = q := Nat.div_add_mod' q c
  have h2 : q % c < c := Nat.mod_lt _ h
  by_cases hr : 0 < q % c
  · rw [if_pos hr, add_mul, one_mul]
    linarith
  · rw [if_neg hr]
    have hr0 : q % c = 0 := by omega
    calc q = q / c * c + q % c := h1.symm
      _ = (q / c + 0) * c := by rw [hr0]; ring
      _ ≤ (q / c + 0) * c := le_refl _

/-- The `bars_used` field of `allocateSpec`, written out. -/
theorem allocateSpec_bars (cut stock : ℚ) (q : ℕ) :
    (allocateSpec cut stock q).bars_used =
      q / (⌊stock / cut⌋).toNat +
        (if 0 < q % (⌊stock / cut⌋).toNat then 1 else 0) := by
  simp [allocateSpec, gt_iff_lt]

/-- Material sufficiency of `allocateSpec`: the bars used cover the
total required length. -/
theorem allocateSpec_material {cut stock : ℚ} (q : ℕ)
    (hc : 0 < cut) (hcs : cut ≤ stock) :
    (q : ℚ) * cut ≤ ((allocateSpec cut stock q).bars_used : ℚ) * stock := by
  have hcpb := cutsPerBar_pos hc hcs
  have hkey := bars_mul_cpb_ge ((⌊stock / cut⌋).toNat) q (by omega)
  have hkeyQ : (q : ℚ) ≤
      ((allocateSpec cut stock q).bars_used : ℚ) * ((⌊stock / cut⌋).toNat : ℚ) := by
    rw [allocateSpec_bars]
    exact_mod_cast hkey
  calc (q : ℚ) * cut
      ≤ (((allocateSpec cut stock q).bars_used : ℚ) *
          ((⌊stock / cut⌋).toNat : ℚ)) * cut :=
        mul_le_mul_of_nonneg_right hkeyQ hc.le
    _ = ((allocateSpec cut stock q).bars_used : ℚ) *
          (((⌊stock / cut⌋).toNat : ℚ) * cut) := by ring
    _ ≤ ((allocateSpec cut stock q).bars_used : ℚ) * stock :=
        mul_le_mul_of_nonneg_left (cutsPerBar_mul_le hc hcs) (by positivity)

/-- A successful allocation implies the two input guards held. -/
theorem bars_and_offcuts_ok_bounds {cut stock : ℚ} {q : ℕ} {r : Alloc}
    (h : bars_and_offcuts cut stock q = .ok r) : 0 < cut ∧ cut ≤ stock := by
  unfold bars_and_offcuts at h
  split_ifs at h with h1 h2
  exact ⟨not_le.mp h1, not_lt.mp h2⟩

/-- A non-positive cut length always makes `bars_and_offcuts` fail. -/
theorem bars_and_offcuts_nonpos {cut stock : ℚ} (q : ℕ) (h : cut ≤ 0) :
    bars_and_offcuts cut stock q = .error "Cut length must be positive." := by
  unfold bars_and_offcuts
  rw [if_pos h]

/-- A candidate shorter than the cut length is skipped. -/
theorem optStep_skip {cut bar : ℚ} (q : ℕ) (b0 : Option OptResult)
    (h : bar < cut) : optStep cut q b0 bar = b0 := by
  unfold optStep
  rw [if_pos h]

/-- A candidate whose allocation fails is skipped. -/
theorem optStep_err {cut bar : ℚ} {q : ℕ} {e : String}
    (h1 : ¬ bar < cut) (he : bars_and_offcuts cut bar q = .error e)
    (b0 : Option OptResult) : optStep cut q b0 bar = b0 := by
  unfold optStep
  rw [if_neg h1, he]

/-- A feasible candidate replaces an empty accumulator. -/
theorem optStep_ok_none {cut bar : ℚ} {q : ℕ} {r : Alloc}
    (h1 : ¬ bar < cut) (hr : bars_and_offcuts cut bar q = .ok r) :
    optStep cut q none bar = some ⟨bar, r.bars_used, r.total_wastage⟩ := by
  unfold optStep
  rw [if_neg h1, hr]

/-- A feasible candidate replaces a present accumulator only when its
wastage is strictly smaller. -/
theorem optStep_ok_some {cut bar : ℚ} {q : ℕ} {r : Alloc}
    (h1 : ¬ bar < cut) (hr : bars_and_offcuts cut bar q = .ok r)
    (b : OptResult) :
    optStep cut q (some b) bar =
      if r.total_wastage < b.wastage then
        some ⟨bar, r.bars_used, r.total_wastage⟩
      else some b := by
  unfold optStep
  rw [if_neg h1, hr]

/-- Skipped or failing candidates leave the optimizer's accumulator
unchanged. -/
theorem optStep_nonpos {cut : ℚ} (q : ℕ) (b0 : Option OptResult) (bar : ℚ)
    (h : cut ≤ 0) : optStep cut q b0 bar = b0 := by
  by_cases h1 : bar < cut
  · exact optStep_skip q b0 h1
  · exact optStep_err h1 (bars_and_offcuts_nonpos q h) b0

/-- Starting from a present accumulator, the fold always ends with a
present accumulator whose wastage is no larger; it either keeps the
accumulator or strictly improves on it. -/
theorem foldl_optStep_some (cut : ℚ) (q : ℕ) :
    ∀ (l : List ℚ) (c : OptResult),
      ∃ b, l.foldl (optStep cut q) (some c) = some b ∧
        (b = c ∨ b.wastage < c.wastage) := by
  intro l
  induction l with
  | nil => exact fun c => ⟨c, rfl, Or.inl rfl⟩
  | cons x xs ih =>
    intro c
    have hstep : ∃ c₁, optStep cut q (some c) x = some c₁ ∧
        (c₁ = c ∨ c₁.wastage < c.wastage) := by
      by_cases h1 : x < cut
      · exact ⟨c, optStep_skip q _ h1, Or.inl rfl⟩
      · cases hb : bars_and_offcuts cut x q with
        | error e => exact ⟨c, optStep_err h1 hb _, Or.inl rfl⟩
        | ok r =>
          by_cases hw : r.total_wastage < c.wastage
          · exact ⟨⟨x, r.bars_used, r.total_wastage⟩,
              by rw [optStep_ok_some h1 hb, if_pos hw], Or.inr hw⟩
          · exact ⟨c, by rw [optStep_ok_some h1 hb, if_neg hw], Or.inl rfl⟩
    obtain ⟨c₁, hc₁, hcw⟩ := hstep
    obtain ⟨b, hb, hbw⟩ := ih c₁
    refine ⟨b, by rw [List.foldl_cons, hc₁]; exact hb, ?_⟩
    rcases hcw with rfl | hlt
    · exact hbw
    · rcases hbw with rfl | hlt2
      · exact Or.inr hlt
      · exact Or.inr (hlt2.trans hlt)

/-- If some candidate in the list is feasible, the fold ends with a
present accumulator. -/
theorem foldl_optStep_exists (cut : ℚ) (q : ℕ) :
    ∀ (l : List ℚ) (b0 : Option OptResult),
      (∃ s ∈ l, ¬ s < cut ∧ ∃ r, bars_and_offcuts cut s q = .ok r) →
      ∃ b, l.foldl (optStep cut q) b0 = some b := by
  intro l
  induction l with
  | nil => rintro b0 ⟨s, hs, -⟩; cases hs
  | cons x xs ih =>
    rintro b0 ⟨s, hs, hsc, r, hr⟩
    rcases List.mem_cons.mp hs with rfl | hmem
    · have hstep : ∃ c₁, optStep cut q b0 s = some c₁ := by
        cases b0 with
        | none => exact ⟨_, optStep_ok_none hsc hr⟩
        | some b =>
          by_cases hw : r.total_wastage < b.wastage
          · exact ⟨_, by rw [optStep_ok_some hsc hr, if_pos hw]⟩
          · exact ⟨b, by rw [optStep_ok_some hsc hr, if_neg hw]⟩
      obtain ⟨c₁, hc₁⟩ := hstep
      obtain ⟨b, hb, -⟩ := foldl_optStep_some cut q xs c₁
      exact ⟨b, by rw [List.foldl_cons, hc₁]; exact hb⟩
    · rw [List.foldl_cons]
      exact ih _ ⟨s, hmem, hsc, r, hr⟩

/-- The fold's final wastage is a lower bound on the wastage of every
feasible candidate in the list. -/
theorem foldl_optStep_min (cut : ℚ) (q : ℕ) :
    ∀ (l : List ℚ) (b0 : Option OptResult) (b : OptResult),
      l.foldl (optStep cut q) b0 = some b →
      ∀ s ∈ l, ¬ s < cut → ∀ r, bars_and_offcuts cut s q = .ok r →
        b.wastage ≤ r.total_wastage := by
  intro l
  induction l with
  | nil => intro b0 b _ s hs; cases hs
  | cons x xs ih =>
    intro b0 b hfold s hs hsc r hr
    rw [List.foldl_cons] at hfold
    rcases List.mem_cons.mp hs with rfl | hmem
    · have hstep : ∃ c₁, optStep cut q b0 s = some c₁ ∧
          c₁.wastage ≤ r.total_wastage := by
        cases b0 with
        | none => exact ⟨_, optStep_ok_none hsc hr, le_refl _⟩
        | some b' =>
          by_cases hw : r.total_wastage < b'.wastage
          · exact ⟨_, by rw [optStep_ok_some hsc hr, if_pos hw], le_refl _⟩
          · exact ⟨b', by rw [optStep_ok_some hsc hr, if_neg hw], not_lt.mp hw⟩
      obtain ⟨c₁, hc₁, hcw⟩ := hstep
      rw [hc₁] at hfold
      obtain ⟨b', hb', hbw⟩ := foldl_optStep_some cut q xs c₁
      rw [hfold] at hb'
      obtain rfl : b' = b := Option.some_injective _ hb'.symm
      rcases hbw with rfl | hlt
      · exact hcw
      · exact (hlt.le).trans hcw
    · exact ih _ b hfold s hmem hsc r hr

/-- Whenever a candidate accepted into the accumulator exists, its
stock length is at least the cut length; the property is preserved by
the whole fold. -/
theorem foldl_optStep_size_ge (cut : ℚ) (q : ℕ) :
    ∀ (l : List ℚ) (b0 : Option OptResult),
      (∀ c, b0 = some c → cut ≤ c.optimal_size) →
      ∀ b, l.foldl (optStep cut q) b0 = some b → cut ≤ b.optimal_size := by
  intro l
  induction l with
  | nil => intro b0 h0 b hb; exact h0 b hb
  | cons x xs ih =>
    intro b0 h0 b hb
    rw [List.foldl_cons] at hb
    refine ih _ ?_ b hb
    intro c hc
    by_cases h1 : x < cut
    · rw [optStep_skip q b0 h1] at hc
      exact h0 c hc
    · cases hbao : bars_and_offcuts cut x q with
      | error e =>
        rw [optStep_err h1 hbao b0] at hc
        exact h0 c hc
      | ok r =>
        cases b0 with
        | none =>
          rw [optStep_ok_none h1 hbao] at hc
          obtain rfl := Option.some_injective _ hc
          exact not_lt.mp h1
        | some b' =>
          rw [optStep_ok_some h1 hbao] at hc
          by_cases hw : r.total_wastage < b'.wastage
          · rw [if_pos hw] at hc
            obtain rfl := Option.some_injective _ hc
            exact not_lt.mp h1
          · rw [if_neg hw] at hc
            exact h0 c hc

/-- Over an ascending candidate list, a candidate whose wastage merely
ties the final accumulator's wastage never displaces it, so the chosen
stock length is at most the length of any tying candidate. -/
theorem foldl_optStep_tie (cut : ℚ) (q : ℕ) :
    ∀ (l : List ℚ), l.Pairwise (· ≤ ·) →
      ∀ (b0 : Option OptResult),
        (∀ c, b0 = some c → ∀ s ∈ l, c.optimal_size ≤ s) →
        ∀ b, l.foldl (optStep cut q) b0 = some b →
          ∀ s ∈ l, ¬ s < cut → ∀ r, bars_and_offcuts cut s q = .ok r →
            r.total_wastage = b.wastage → b.optimal_size ≤ s := by
  intro l
  induction l with
  | nil => intro _ b0 _ b _ s hs; cases hs
  | cons x xs ih =>
    intro hsorted b0 h0 b hfold s hs hsc r hr htie
    have hx : ∀ y ∈ xs, x ≤ y := fun y hy =>
      (List.pairwise_cons.mp hsorted).1 y hy
    have hxs : xs.Pairwise (· ≤ ·) := (List.pairwise_cons.mp hsorted).2
    rw [List.foldl_cons] at hfold
    have hinv : ∀ c, optStep cut q b0 x = some c → ∀ y ∈ xs, c.optimal_size ≤ y := by
      intro c hc y hy
      by_cases h1 : x < cut
      · rw [optStep_skip q b0 h1] at hc
        exact h0 c hc y (List.mem_cons_of_mem _ hy)
      · cases hbao : bars_and_offcuts cut x q with
        | error e =>
          rw [optStep_err h1 hbao b0] at hc
          exact h0 c hc y (List.mem_cons_of_mem _ hy)
        | ok r' =>
          cases b0 with
          | none =>
            rw [optStep_ok_none h1 hbao] at hc
            obtain rfl := Option.some_injective _ hc
            exact hx y hy
          | some b' =>
            rw [optStep_ok_some h1 hbao] at hc
            by_cases hw : r'.total_wastage < b'.wastage
            · rw [if_pos hw] at hc
              obtain rfl := Option.some_injective _ hc
              exact hx y hy
            · rw [if_neg hw] at hc
              exact h0 c hc y (List.mem_cons_of_mem _ hy)
    rcases List.mem_cons.mp hs with rfl | hmem
    · have hstep : ∃ c₁, optStep cut q b0 s = some c₁ ∧
          (c₁.optimal_size ≤ s ∧ c₁.wastage ≤ r.total_wastage) := by
        cases b0 with
        | none =>
          exact ⟨_, optStep_ok_none hsc hr, le_refl _, le_refl _⟩
        | some b' =>
          rw [optStep_ok_some hsc hr]
          by_cases hw : r.total_wastage < b'.wastage
          · exact ⟨_, by rw [if_pos hw], le_refl _, le_refl _⟩
          · exact ⟨b', by rw [if_neg hw],
              h0 b' rfl s (List.mem_cons_self _ _), not_lt.mp hw⟩
      obtain ⟨c₁, hc₁, hsize, hcw⟩ := hstep
      rw [hc₁] at hfold
      obtain ⟨b', hb', hbw⟩ := foldl_optStep_some cut q xs c₁
      rw [hfold] at hb'
      obtain rfl : b' = b := Option.some_injective _ hb'.symm
      rcases hbw with heq | hlt
      · rw [heq]; exact hsize
      · exfalso
        rw [← htie] at hlt
        exact lt_irrefl _ (hlt.trans_le hcw)
    · exact ih hxs _ hinv b hfold s hmem hsc r hr htie

/-- With a non-positive cut length every candidate allocation fails, so
the optimizer returns its initial accumulator (the dictionary without
an `'optimal_size'` key). -/
theorem optimal_bar_size_nonpos {cut : ℚ} (q : ℕ) (h : cut ≤ 0) :
    optimal_bar_size cut q = .noCandidate := by
  unfold optimal_bar_size
  rw [if_neg (by linarith : ¬ cut > 12)]
  have hfold : standard_bar_sizes.foldl (optStep cut q) none = none := by
    unfold standard_bar_sizes
    rw [List.foldl_cons, optStep_nonpos q none 6 h,
      List.foldl_cons, optStep_nonpos q none 7.5 h,
      List.foldl_cons, optStep_nonpos q none 9 h,
      List.foldl_cons, optStep_nonpos q none 12 h,
      List.foldl_nil]
  rw [hfold]

/-- Any result the optimizer actually returns chose a stock length at
least as long as the cut length. -/
theorem optimal_bar_size_ok_size_ge {cut : ℚ} {q : ℕ} {b : OptResult}
    (h : optimal_bar_size cut q = .ok b) : cut ≤ b.optimal_size := by
  unfold optimal_bar_size at h
  by_cases h12 : cut > 12
  · rw [if_pos h12] at h
    cases hbao : bars_and_offcuts cut 12 q with
    | error e => rw [hbao] at h; cases h
    | ok r =>
      rw [hbao] at h
      injection h with h'
      subst h'
      exact (bars_and_offcuts_ok_bounds hbao).2
  · rw [if_neg h12] at h
    cases hfold : standard_bar_sizes.foldl (optStep cut q) none with
    | none => rw [hfold] at h; cases h
    | some c =>
      rw [hfold] at h
      injection h with h'
      subst h'
      exact foldl_optStep_size_ge cut q standard_bar_sizes none (by simp) c hfold

/-- Concrete allocation: 3 cuts of 0.25 m from one 6 m bar. -/
theorem bao_quarter_example :
    bars_and_offcuts 0.25 6 3 = .ok ⟨1, [5.25], 5.25⟩ := by
  have hfloor : (⌊(6 : ℚ) / 0.25⌋).toNat = 24 := by
    rw [show ⌊(6 : ℚ) / 0.25⌋ = 24 by norm_num]
    rfl
  rw [bars_and_offcuts_eq_spec 3 (by norm_num) (by norm_num)]
  unfold allocateSpec
  rw [hfloor]
  norm_num [Except.ok.injEq, Alloc.mk.injEq]
  rw [round3_eq 5250 (by norm_num)]

/-- Concrete allocation: one cut of 1 m from one 6 m bar. -/
theorem bao_one_example :
    bars_and_offcuts 1 6 1 = .ok ⟨1, [5], 5⟩ := by
  have hfloor : (⌊(6 : ℚ) / 1⌋).toNat = 6 := by
    rw [show ⌊(6 : ℚ) / 1⌋ = 6 by norm_num]
    rfl
  rw [bars_and_offcuts_eq_spec 1 (by norm_num) (by norm_num)]
  unfold allocateSpec
  rw [hfloor]
  norm_num [Except.ok.injEq, Alloc.mk.injEq]
  rw [round3_eq 5000 (by norm_num)]

/-- Concrete allocation failure: a 7 m cut does not fit a 6 m bar. -/
theorem bao_seven_six_err :
    bars_and_offcuts 7 6 1 =
      .error "Cut length is greater than stock bar size." := by
  unfold bars_and_offcuts
  rw [if_neg (by norm_num), if_pos (by norm_num)]

/-- Concrete record build with a fixed 6 m preference. -/
theorem bm_example :
    bm "A" [1000] "D" 10 0 1 "L" (.fixed 6) =
      some ⟨"A", "D10", "L", 1, 1, 6, 1, 5, [1000]⟩ := by
  have hcut : round3 (((Cutlength [1000] 10 0 : ℤ) : ℚ) / 1000) = 1 := by
    rw [round3_coe_div, show Cutlength [1000] 10 0 = 1000 from rfl]
    norm_num
  unfold bm
  rw [if_neg (by norm_num : ¬ (1 : ℤ) ≤ 0), hcut,
    show Int.toNat 1 = 1 from rfl]
  simp only [bao_one_example]
  rfl

/-- The dictionary lookup of `Cutlength` agrees with the spec's table. -/
theorem Bend_deductions_lookup (d : ℕ) :
    (Bend_deductions.lookup d).getD 0 = specBendDeduction d := by
  by_cases h10 : d = 10
  · subst h10; rfl
  by_cases h12 : d = 12
  · subst h12; rfl
  by_cases h16 : d = 16
  · subst h16; rfl
  by_cases h18 : d = 18
  · subst h18; rfl
  by_cases h20 : d = 20
  · subst h20; rfl
  by_cases h25 : d = 25
  · subst h25; rfl
  by_cases h32 : d = 32
  · subst h32; rfl
  simp only [Bend_deductions, List.lookup,
    beq_eq_false_iff_ne.mpr h10, beq_eq_false_iff_ne.mpr h12,
    beq_eq_false_iff_ne.mpr h16, beq_eq_false_iff_ne.mpr h18,
    beq_eq_false_iff_ne.mpr h20, beq_eq_false_iff_ne.mpr h25,
    beq_eq_false_iff_ne.mpr h32, Option.getD_none]
  simp [specBendDeduction, h10, h12, h16, h18, h20, h25, h32]

/-! ### Claim theorems -/

/-- C1: the spec claims that for a cut length beyond the whole catalog
(> 12 m) and a positive quantity, `optimal_bar_size` falls back to the
12 m entry and returns its allocation.  In the code the fallback branch
calls `bars_and_offcuts(cut_length, 12.0, ...)`, which returns an error
dictionary because `cut_length > 12.0`, and the subsequent
`result['bars_used']` subscript raises `KeyError`: the optimizer
crashes instead of returning an allocation. -/
theorem optimal_bar_size_crashes_beyond_catalog (cut : ℚ) (q : ℕ)
    (h : 12 < cut) (_hq : 1 ≤ q) : optimal_bar_size cut q = .crash := by
  unfold optimal_bar_size
  rw [if_pos h]
  have herr : bars_and_offcuts cut 12 q =
      .error "Cut length is greater than stock bar size." := by
    unfold bars_and_offcuts
    rw [if_neg (by linarith), if_pos h]
  rw [herr]

/-- C1 witness: the crash at the concrete failing input
`cut_length = 13`, `num_cuts_needed = 1`. -/
theorem optimal_bar_size_crashes_beyond_catalog_witness :
    optimal_bar_size 13 1 = .crash :=
  optimal_bar_size_crashes_beyond_catalog 13 1 (by norm_num) (le_refl 1)

/-- C3 counterexample: `Cutlength` performs no positivity check — on
lengths `[100]`, diameter 12 and five 90-degree bends it returns the
non-positive value `-20` instead of signalling an error. -/
theorem Cutlength_returns_nonpositive : Cutlength [100] 12 5 = -20 := by
  decide

/-- C3 (amended): `Cutlength` itself returns the raw (possibly
non-positive) value, but whenever that value is ≤ 0 the record builder
`bm` produces no record: its allocation step rejects the non-positive
cut length in every branch. -/
theorem bm_rejects_nonpositive_cutlength (Barmark : String)
    (Lengths : List ℤ) (type_rebar : String) (Diameter bends_90 : ℕ)
    (Unit_number : ℤ) (Location : String) (Preferred_Length : StockPref)
    (h : Cutlength Lengths Diameter bends_90 ≤ 0) :
    bm Barmark Lengths type_rebar Diameter bends_90 Unit_number Location
      Preferred_Length = none := by
  have hle : ((Cutlength Lengths Diameter bends_90 : ℤ) : ℚ) / 1000 ≤ 0 := by
    apply div_nonpos_iff.mpr
    refine Or.inr ⟨by exact_mod_cast h, by norm_num⟩
  have hm : round3 (((Cutlength Lengths Diameter bends_90 : ℤ) : ℚ) / 1000) =
      ((Cutlength Lengths Diameter bends_90 : ℤ) : ℚ) / 1000 :=
    round3_coe_div _
  unfold bm
  simp only [hm]
  split_ifs with hu
  · rfl
  · cases Preferred_Length with
    | optimal => rw [optimal_bar_size_nonpos _ hle]
    | fixed l => simp only [bars_and_offcuts_nonpos Unit_number.toNat hle]

/-- C3 witness: the record build is rejected at the concrete input. -/
theorem bm_rejects_nonpositive_cutlength_witness :
    bm "X" [100] "D" 12 5 1 "L" (.fixed 6) = none :=
  bm_rejects_nonpositive_cutlength "X" [100] "D" 12 5 1 "L" (.fixed 6)
    (by decide)

/-- C7: `Cutlength` returns the sum of the raw lengths minus the bend
count times the fixed per-diameter deduction (table
`{10:20, 12:24, 16:32, 18:36, 20:40, 25:50, 32:64}`, 0 for diameters
absent from it); in particular
`Cutlength [200, 1000, 200] 12 2 = 1352` mm. -/
theorem Cutlength_spec :
    (∀ (lengths : List ℤ) (d n : ℕ),
      Cutlength lengths d n = lengths.sum - specBendDeduction d * n) ∧
    Cutlength [200, 1000, 200] 12 2 = 1352 := by
  refine ⟨fun lengths d n => ?_, by decide⟩
  unfold Cutlength
  rw [Bend_deductions_lookup]

/-- C8 counterexample: for the non-positive spacing 0 the claim says
`numof` signals an error, but the code's guard returns the number 0. -/
theorem numof_zero_spacing : numof 5000 0 75 = 0 := by decide

/-- C8 (amended): for positive spacing `numof` returns
`max 0 (⌈(length − cover) / spacing⌉ − 2)`; for spacing ≤ 0 it returns
0 rather than signalling an error. -/
theorem numof_spec (length spacing cover : ℚ) :
    (0 < spacing → numof length spacing cover =
      max 0 (⌈(length - cover) / spacing⌉ - 2)) ∧
    (spacing ≤ 0 → numof length spacing cover = 0) := by
  constructor
  · intro h
    unfold numof
    rw [if_neg (not_le.mpr h)]
  · intro h
    unfold numof
    rw [if_pos h]

/-- C8 witness: both branches at concrete inputs. -/
theorem numof_spec_witness :
    numof 5000 200 75 = max 0 (⌈((5000 : ℚ) - 75) / 200⌉ - 2) ∧
      numof 5000 0 75 = 0 :=
  ⟨(numof_spec 5000 200 75).1 (by norm_num),
   (numof_spec 5000 0 75).2 (by norm_num)⟩

/-- C4: on every valid input (`0 < cutLength ≤ stockLength`,
`quantity ≥ 1`), `bars_and_offcuts` succeeds and the bars used cover
the total required length: `barsUsed × stockLength ≥ cutLength ×
quantity`. -/
theorem bars_and_offcuts_material (cut stock : ℚ) (q : ℕ)
    (hc : 0 < cut) (hcs : cut ≤ stock) (_hq : 1 ≤ q) :
    ∃ r, bars_and_offcuts cut stock q = .ok r ∧
      cut * (q : ℚ) ≤ (r.bars_used : ℚ) * stock :=
  ⟨allocateSpec cut stock q, bars_and_offcuts_eq_spec q hc hcs, by
    rw [mul_comm]
    exact allocateSpec_material q hc hcs⟩

/-- C4 witness: the spec's own example, 50 cuts of 2.8 m from 6 m
stock. -/
theorem bars_and_offcuts_material_witness :
    ∃ r, bars_and_offcuts 2.8 6 50 = .ok r ∧
      (2.8 : ℚ) * ((50 : ℕ) : ℚ) ≤ (r.bars_used : ℚ) * 6 :=
  bars_and_offcuts_material 2.8 6 50 (by norm_num) (by norm_num)
    (by norm_num)

/-- C5: on every valid input `bars_and_offcuts` implements exactly the
spec's allocation algorithm (`allocateSpec`: floor cuts-per-bar,
quantity split by integer division, one offcut per bar, wastage the sum
of offcuts rounded once to 3 decimals); in particular
`bars_and_offcuts 0.25 6 3 = ok (barsUsed 1, offcuts [5.25],
totalWastage 5.25)`. -/
theorem bars_and_offcuts_algorithm :
    (∀ (cut stock : ℚ) (q : ℕ), 0 < cut → cut ≤ stock → 1 ≤ q →
      bars_and_offcuts cut stock q = .ok (allocateSpec cut stock q)) ∧
    bars_and_offcuts 0.25 6 3 = .ok ⟨1, [5.25], 5.25⟩ :=
  ⟨fun _ _ q hc hcs _ => bars_and_offcuts_eq_spec q hc hcs,
   bao_quarter_example⟩

/-- C5 witness: the general part applied at the concrete example
input. -/
theorem bars_and_offcuts_algorithm_witness :
    bars_and_offcuts 0.25 6 3 = .ok (allocateSpec 0.25 6 3) :=
  bars_and_offcuts_algorithm.1 0.25 6 3 (by norm_num) (by norm_num)
    (by norm_num)

/-- C10: on every valid input the reported total wastage equals
`round3 (barsUsed × stockLength − quantity × cutLength)` — total stock
consumed minus total material required, rounded once at the end. -/
theorem bars_and_offcuts_wastage_closed_form (cut stock : ℚ) (q : ℕ)
    (hc : 0 < cut) (hcs : cut ≤ stock) (_hq : 1 ≤ q) :
    ∀ r, bars_and_offcuts cut stock q = .ok r →
      r.total_wastage = round3 ((r.bars_used : ℚ) * stock - (q : ℚ) * cut) := by
  intro r hr
  rw [bars_and_offcuts_eq_spec q hc hcs] at hr
  injection hr with hr'
  subst hr'
  exact allocateSpec_wastage cut stock q

/-- C10 witness: at the concrete allocation of 3 cuts of 0.25 m from a
6 m bar, the reported wastage 5.25 equals
`round3 (1 × 6 − 3 × 0.25)`. -/
theorem bars_and_offcuts_wastage_closed_form_witness :
    (⟨1, [5.25], 5.25⟩ : Alloc).total_wastage =
      round3 (((⟨1, [5.25], 5.25⟩ : Alloc).bars_used : ℚ) * 6 -
        ((3 : ℕ) : ℚ) * 0.25) :=
  bars_and_offcuts_wastage_closed_form 0.25 6 3 (by norm_num) (by norm_num)
    (by norm_num) ⟨1, [5.25], 5.25⟩ bao_quarter_example

/-- C6: for `0 < cutLength ≤ 12` and `quantity ≥ 1` the optimizer
returns a result whose wastage is at most the wastage of
`bars_and_offcuts` for every catalog stock length ≥ the cut length, and
on a wastage tie the chosen stock length is the shorter one (the
catalog is scanned in ascending order and only a strictly smaller
wastage replaces the current best). -/
theorem optimal_bar_size_optimal (cut : ℚ) (q : ℕ)
    (hc : 0 < cut) (h12 : cut ≤ 12) (_hq : 1 ≤ q) :
    ∃ b, optimal_bar_size cut q = .ok b ∧
      ∀ s ∈ standard_bar_sizes, cut ≤ s →
        ∀ r, bars_and_offcuts cut s q = .ok r →
          b.wastage ≤ r.total_wastage ∧
            (r.total_wastage = b.wastage → b.optimal_size ≤ s) := by
  have h12ok : ∃ r, bars_and_offcuts cut 12 q = .ok r :=
    ⟨_, bars_and_offcuts_eq_spec q hc h12⟩
  have h12mem : (12 : ℚ) ∈ standard_bar_sizes := by
    simp [standard_bar_sizes]
  obtain ⟨b, hb⟩ := foldl_optStep_exists cut q standard_bar_sizes none
    ⟨12, h12mem, not_lt.mpr h12, h12ok⟩
  refine ⟨b, ?_, ?_⟩
  · unfold optimal_bar_size
    rw [if_neg (not_lt.mpr h12), hb]
  · intro s hs hcs r hr
    refine ⟨foldl_optStep_min cut q standard_bar_sizes none b hb s hs
      (not_lt.mpr hcs) r hr, ?_⟩
    intro htie
    refine foldl_optStep_tie cut q standard_bar_sizes ?_ none (by simp)
      b hb s hs (not_lt.mpr hcs) r hr htie
    norm_num [standard_bar_sizes, List.pairwise_cons]

/-- C6 witness: the spec's example, cut length 2.8 m and 50 cuts. -/
theorem optimal_bar_size_optimal_witness :
    ∃ b, optimal_bar_size 2.8 50 = .ok b ∧
      ∀ s ∈ standard_bar_sizes, (2.8 : ℚ) ≤ s →
        ∀ r, bars_and_offcuts 2.8 s 50 = .ok r →
          b.wastage ≤ r.total_wastage ∧
            (r.total_wastage = b.wastage → b.optimal_size ≤ s) :=
  optimal_bar_size_optimal 2.8 50 (by norm_num) (by norm_num) (by norm_num)

/-- C2: every record `bm` actually produces has its chosen stock length
at least its cut length in meters, under both the `Optimal` preference
and a fixed stock-length preference. -/
theorem bm_stock_ge_cut (Barmark : String) (Lengths : List ℤ)
    (type_rebar : String) (Diameter bends_90 : ℕ) (Unit_number : ℤ)
    (Location : String) (Preferred_Length : StockPref) (rec : BarRecord)
    (h : bm Barmark Lengths type_rebar Diameter bends_90 Unit_number
      Location Preferred_Length = some rec) :
    rec.CutLength ≤ rec.StockLength := by
  unfold bm at h
  split_ifs at h with hu
  cases Preferred_Length with
  | optimal =>
    cases hopt : optimal_bar_size
        (round3 (((Cutlength Lengths Diameter bends_90 : ℤ) : ℚ) / 1000))
        Unit_number.toNat with
    | ok r =>
      simp only [hopt] at h
      injection h with h'
      subst h'
      exact optimal_bar_size_ok_size_ge hopt
    | noCandidate => simp only [hopt] at h; exact Option.noConfusion h
    | crash => simp only [hopt] at h; exact Option.noConfusion h
  | fixed l =>
    cases hbao : bars_and_offcuts
        (round3 (((Cutlength Lengths Diameter bends_90 : ℤ) : ℚ) / 1000))
        l Unit_number.toNat with
    | ok r =>
      simp only [hbao] at h
      injection h with h'
      subst h'
      exact (bars_and_offcuts_ok_bounds hbao).2
    | error e => simp only [hbao] at h; exact Option.noConfusion h

/-- C2 witness: a concrete successful build whose stock length (6 m)
is at least its cut length (1 m). -/
theorem bm_stock_ge_cut_witness :
    bm "A" [1000] "D" 10 0 1 "L" (.fixed 6) =
        some ⟨"A", "D10", "L", 1, 1, 6, 1, 5, [1000]⟩ ∧
      (⟨"A", "D10", "L", 1, 1, 6, 1, 5, [1000]⟩ : BarRecord).CutLength ≤
        (⟨"A", "D10", "L", 1, 1, 6, 1, 5, [1000]⟩ : BarRecord).StockLength :=
  ⟨bm_example,
   bm_stock_ge_cut "A" [1000] "D" 10 0 1 "L" (.fixed 6) _ bm_example⟩

/-- C9: `recalculate_with_fixed_length` processes every record
independently (same number of output rows, one per input row, so one
infeasible record never blocks the rest); each output row keeps the
input row's identifying fields, has its stock length set to the fixed
length, takes its bar count and wastage from
`bars_and_offcuts(cutLength, fixedLength, unitCount)` when that
succeeds, and carries the explicit `'N/A'` marker (no numeric wastage)
whenever the record's cut length exceeds the fixed length. -/
theorem recalculate_fixed_spec (df : List BarRecord) (fixed_length : ℚ) :
    (recalculate_with_fixed_length df fixed_length).length = df.length ∧
    ∀ (i : ℕ) (row : BarRecord), df[i]? = some row →
      ∃ out, (recalculate_with_fixed_length df fixed_length)[i]? = some out ∧
        out.Barmark = row.Barmark ∧ out.Grade = row.Grade ∧
        out.Location = row.Location ∧ out.CutLength = row.CutLength ∧
        out.Units = row.Units ∧ out.Lengths = row.Lengths ∧
        out.StockLength = fixed_length ∧
        (∀ r, bars_and_offcuts row.CutLength fixed_length row.Units = .ok r →
          out.NumStockBars = some r.bars_used ∧
            out.Wastage = some r.total_wastage) ∧
        (fixed_length < row.CutLength →
          out.NumStockBars = none ∧ out.Wastage = none) := by
  constructor
  · simp [recalculate_with_fixed_length]
  · intro i row hrow
    refine ⟨recalc_row fixed_length row, ?_, ?_⟩
    · simp [recalculate_with_fixed_length, List.getElem?_map, hrow]
    · cases hbao : bars_and_offcuts row.CutLength fixed_length row.Units with
      | ok r =>
        have hrec : recalc_row fixed_length row =
            ⟨row.Barmark, row.Grade, row.Location, row.CutLength, row.Units,
             fixed_length, some r.bars_used, some r.total_wastage,
             row.Lengths⟩ := by
          unfold recalc_row
          rw [hbao]
        rw [hrec]
        refine ⟨rfl, rfl, rfl, rfl, rfl, rfl, rfl, ?_, ?_⟩
        · intro r' hr'
          injection hr' with h'
          subst h'
          exact ⟨rfl, rfl⟩
        · intro hlt
          exact absurd (bars_and_offcuts_ok_bounds hbao).2 (not_le.mpr hlt)
      | error e =>
        have hrec : recalc_row fixed_length row =
            ⟨row.Barmark, row.Grade, row.Location, row.CutLength, row.Units,
             fixed_length, none, none, row.Lengths⟩ := by
          unfold recalc_row
          rw [hbao]
        rw [hrec]
        refine ⟨rfl, rfl, rfl, rfl, rfl, rfl, rfl, ?_, ?_⟩
        · intro r' hr'
          exact Except.noConfusion hr'
        · intro hlt
          exact ⟨rfl, rfl⟩

/-- A sample record whose 7 m cut length cannot be served from 6 m
stock. -/
def sampleRow : BarRecord := ⟨"A", "D10", "L", 7, 1, 7.5, 1, 0.5, [7000]⟩

/-- C9 witness: the per-row clause applied at index 0 of a one-row
schedule whose cut length exceeds the fixed 6 m length. -/
theorem recalculate_fixed_spec_witness :
    ∃ out, (recalculate_with_fixed_length [sampleRow] 6)[0]? = some out ∧
      out.Barmark = sampleRow.Barmark ∧ out.Grade = sampleRow.Grade ∧
      out.Location = sampleRow.Location ∧
      out.CutLength = sampleRow.CutLength ∧
      out.Units = sampleRow.Units ∧ out.Lengths = sampleRow.Lengths ∧
      out.StockLength = 6 ∧
      (∀ r, bars_and_offcuts sampleRow.CutLength 6 sampleRow.Units = .ok r →
        out.NumStockBars = some r.bars_used ∧
          out.Wastage = some r.total_wastage) ∧
      ((6 : ℚ) < sampleRow.CutLength →
        out.NumStockBars = none ∧ out.Wastage = none) :=
  (recalculate_fixed_spec [sampleRow] 6).2 0 sampleRow rfl

end BarM
